import Mathlib

/-
Verification of the SNIP-style sparse-training engine in sniper.py.

Shallow embedding conventions:
- Python floats are modelled as rationals; all arithmetic is exact.
- Tensors are modelled as flat lists of rationals (only elementwise
  operations, counting and order statistics occur in the code under study,
  so shapes beyond the element count are irrelevant).
- Fallible operations (Python exceptions: ZeroDivisionError, KeyError,
  AttributeError, ValueError, failed assert, torch errors) return Option,
  with none meaning the exception propagates.
- Disk contents (mask files) appear as an oracle function in the
  configuration record; torch.load of a mask file returns the oracle value.
-/

set_option synthInstance.maxSize 10000

namespace Sniper


/-- Python int() applied to a nonnegative float: truncation, i.e. floor. -/
def pyInt (q : ℚ) : Nat := q.floor.toNat

/-- Python float division; none models ZeroDivisionError. -/
def pyDiv (a b : ℚ) : Option ℚ := if b = 0 then none else some (a / b)

/-- torch.kthvalue(x, k).values.item(): the k-th smallest element
(1-indexed); none models the torch error for k out of range. -/
def kthvalue (xs : List ℚ) (k : Nat) : Option ℚ :=
  if 1 ≤ k ∧ k ≤ xs.length then (List.insertionSort (fun a b => a ≤ b) xs)[k-1]? else none

/-- Helper for splitOnDot: splits a character list at each dot. -/
def splitChars : List Char → List (List Char)
  | [] => [[]]
  | c :: cs =>
    let r := splitChars cs
    if c = '.' then [] :: r
    else
      match r with
      | [] => [[c]]
      | h :: t => (c :: h) :: t

/-- Python s.split(sep=dot), as used by get_module_by_name. Agrees with
str.split: the empty string yields a singleton list holding the empty
string. -/
def splitOnDot (s : String) : List String := (splitChars s.toList).map (fun cs => ⟨cs⟩)

/-- Python full_name.rsplit(sep, 1) unpacked into two variables (m, n);
none models the ValueError raised when there is no dot. -/
def rsplitName (full_name : String) : Option (String × String) :=
  let parts := splitOnDot full_name
  if parts.length < 2 then none
  else some (String.intercalate "." parts.dropLast, parts.getLastD "")

/-- Python substring containment (e in s) on character lists: e is a
prefix of some suffix of s. -/
def containsChars (s e : List Char) : Bool :=
  if e.isPrefixOf s then true
  else
    match s with
    | [] => false
    | _ :: rest => containsChars rest e

/-- MaskSet: mapping from qualified parameter name to a boolean mask
(true = keep), modelled as an association list. -/
abbrev MaskSet := List (String × List Bool)

/-- SniperTraining.create_masks. Faithful to the source:
global threshold at int(sparsity/100*len) via kthvalue, per-parameter
override when the parameter would exceed max_param_sparsity, and the
seeded random fill when the override keeps zero elements. The
random.Random(0).shuffle of the fill list is modelled as the identity
permutation: the shuffle only permutes a list with int(max_sparsity*numel)
false entries, and no property below depends on the order of entries.
none models the torch errors raised for out-of-range kthvalue indices and
the ZeroDivisionError for an empty parameter. -/
def create_masks (sparsity : ℚ) (total_grads : List (String × List ℚ))
    (max_param_sparsity : ℚ) : Option MaskSet := do
  let flattened_grads := (total_grads.map Prod.snd).flatten
  let threshold ← kthvalue flattened_grads (pyInt (sparsity / 100 * flattened_grads.length))
  let max_sparsity := max_param_sparsity / 100
  total_grads.mapM (fun ng => do
    let total_grad := ng.2
    let mask := total_grad.map (fun g => decide (g > threshold))
    let nonzero : Nat := mask.count true
    let numel : Nat := mask.length
    if numel = 0 then none
    else if 1 - (nonzero : ℚ) / (numel : ℚ) > max_sparsity then do
      let param_threshold ← kthvalue total_grad (1 + pyInt (max_sparsity * numel))
      let mask2 := total_grad.map (fun g => decide (g > param_threshold))
      let nonzero2 := mask2.count true
      if nonzero2 = 0 ∧ max_sparsity < 1 then
        let num_false : Nat := pyInt (max_sparsity * (numel : ℚ))
        pure (ng.1, List.replicate num_false false ++ List.replicate (numel - num_false) true)
      else pure (ng.1, mask2)
    else pure (ng.1, mask))

/-- Concrete sensitivity values 1, 2, ..., 100 for one parameter with 100
elements (all distinct). -/
def c1_grads : List ℚ := (List.range 100).map (fun i => ((i : ℚ) + 1))

/-- SniperTraining.compute_gradients, with automatic differentiation as an
external capability: batch_grads gives, per batch and per prunable
parameter, the gradient of the loss with respect to the all-ones
multiplier tensor of that parameter (torch.autograd.grad(loss, masks)).
The source initialises a zero total per parameter, adds each raw batch
gradient into the running totals, and takes the absolute value only once
at the end, when zipping the totals with the parameter names. -/
def compute_gradients (params_to_prune : List String) (param_shapes : List Nat)
    (batch_grads : List (List (List ℚ))) : List (String × List ℚ) :=
  let total_grads0 := param_shapes.map (fun n => List.replicate n (0 : ℚ))
  let total_grads := batch_grads.foldl
    (fun total_grads grads =>
      List.zipWith (fun total_grad grad => List.zipWith (fun a b => a + b) total_grad grad)
        total_grads grads)
    total_grads0
  List.zip params_to_prune (total_grads.map (fun t => t.map (fun x => |x|)))

/-- Modelled from the spec words for claim C8 only (to be compared with
compute_gradients above): accumulate the absolute value of each resulting
gradient into a running per-parameter total, then return the accumulated
totals. -/
def compute_gradients_claimed (params_to_prune : List String) (param_shapes : List Nat)
    (batch_grads : List (List (List ℚ))) : List (String × List ℚ) :=
  let totals := batch_grads.foldl
    (fun totals grads =>
      List.zipWith (fun total grad => List.zipWith (fun a b => a + |b|) total grad)
        totals grads)
    (param_shapes.map (fun n => List.replicate n (0 : ℚ)))
  List.zip params_to_prune totals

/-- Module tree: parameters and named submodules. -/
inductive PTree where
  | node : List (String × List ℚ) → List (String × PTree) → PTree

/-- Result of getattr on a module: a parameter tensor or a submodule. -/
inductive PAttr where
  | par : List ℚ → PAttr
  | mod : PTree → PAttr

/-- Directly held parameters of a module. -/
def PTree.params : PTree → List (String × List ℚ)
  | PTree.node ps _ => ps

/-- Directly held submodules of a module. -/
def PTree.subs : PTree → List (String × PTree)
  | PTree.node _ cs => cs

/-- Python getattr(module, n): parameter first, then submodule, else
AttributeError (none). -/
def PTree.getattr (t : PTree) (n : String) : Option PAttr :=
  match List.lookup n t.params with
  | some v => some (PAttr.par v)
  | none => (List.lookup n t.subs).map PAttr.mod

/-- reduce(getattr, names, model) of get_module_by_name: walks the
attribute chain; an intermediate parameter has no module attributes, so
continuing past one fails (AttributeError, none). -/
def getAttrChain : PAttr → List String → Option PAttr
  | a, [] => some a
  | PAttr.mod t, n :: ns =>
    match t.getattr n with
    | some a => getAttrChain a ns
    | none => none
  | PAttr.par _, _ :: _ => none

/-- get_module_by_name(model, access_string): split on dots and reduce
getattr from the model. -/
def get_module_by_name (model : PTree) (access_string : String) : Option PAttr :=
  getAttrChain (PAttr.mod model) (splitOnDot access_string)

/-- get_module_to_snip(model, snip_module_name): try get_module_by_name
and, on AttributeError, fall back to the whole model. The empty string
resolves to nothing (getattr with an empty name fails), so the empty
string also selects the whole model through the fallback. -/
def get_module_to_snip (model : PTree) (snip_module_name : String) : PAttr :=
  match get_module_by_name model snip_module_name with
  | some a => a
  | none => PAttr.mod model

/-- Replace the value stored under a key in an association list, leaving
every key in place (models in-place attribute mutation). -/
def assocSet {β : Type} (l : List (String × β)) (k : String) (v : β) : List (String × β) :=
  l.map (fun p => if p.1 = k then (k, v) else p)

/-- Resolution-and-update used by restore_init for one qualified name:
walk the module path (params shadow submodules, as in getattr), then read
parameter n of the final module, apply f to its value, and write the
result back. none models AttributeError along the walk or on the final
parameter access, or a failure of f itself. -/
def updateParamAt (t : PTree) (path : List String) (n : String)
    (f : List ℚ → Option (List ℚ)) : Option PTree :=
  match path with
  | [] =>
    match List.lookup n t.params with
    | some v => (f v).map (fun v2 => PTree.node (assocSet t.params n v2) t.subs)
    | none => none
  | s :: rest =>
    match List.lookup s t.params with
    | some _ => none
    | none =>
      match List.lookup s t.subs with
      | some child =>
        (updateParamAt child rest n f).map (fun c2 => PTree.node t.params (assocSet t.subs s c2))
      | none => none

/-- torch elementwise comparison and logical_and of restore_init (masked
branch): values_to_update = logical_and(param.data == 0.0, mask). -/
def values_to_update_masked (cur : List ℚ) (mask : List Bool) : List Bool :=
  List.zipWith (fun c b => decide (c = 0) && b) cur mask

/-- Elementwise update of restore_init:
param.data = param_init_values.data * values_to_update.to(dtype) + param.data. -/
def restore_write (param_init_values : List ℚ) (values_to_update : List Bool)
    (cur : List ℚ) : List ℚ :=
  List.zipWith3 (fun iv u c => iv * (if u then (1 : ℚ) else 0) + c)
    param_init_values values_to_update cur

/-- Per-parameter effect of the masked branch of restore_init. -/
def restore_param_masked (param_init_values cur : List ℚ) (mask : List Bool) : List ℚ :=
  restore_write param_init_values (values_to_update_masked cur mask) cur

/-- torch elementwise comparison of restore_init (no-mask branch):
values_to_update = (param.data == 0.0). -/
def values_to_update_full (cur : List ℚ) : List Bool :=
  cur.map (fun c => decide (c = 0))

/-- Per-parameter effect of the no-mask (full density) branch of
restore_init. -/
def restore_param_full (param_init_values cur : List ℚ) : List ℚ :=
  restore_write param_init_values (values_to_update_full cur) cur

/-- Loop body of the masked branch of restore_init for one mask entry:
dict lookup in init_values (KeyError propagates), rsplit of the qualified
name (ValueError propagates), module walk and parameter access
(AttributeError propagates), then the elementwise write. The length
guards model the torch shape requirements of the elementwise operations;
a mismatch raises, so none. -/
def restore_step (init_values : List (String × List ℚ)) (pfx : String)
    (t : PTree) (nm : String × List Bool) : Option PTree := do
  let param_init_values ← List.lookup (pfx ++ nm.1) init_values
  let mn ← rsplitName nm.1
  updateParamAt t (splitOnDot mn.1) mn.2 (fun cur =>
    if cur.length = nm.2.length ∧ param_init_values.length = cur.length then
      some (restore_param_masked param_init_values cur nm.2)
    else none)

/-- Name prefix used by the masked branch of restore_init to turn
module_to_snip-relative names into full-model names. -/
def snip_prefix_str (snip_module_name : String) : String :=
  if snip_module_name = "" then "" else snip_module_name ++ "."

/-- Masked branch of SniperTraining.restore_init: for every mask entry,
prepend snip_module_name to the qualified name, look up the initial
values, resolve the parameter inside module_to_snip and rewrite it. -/
def restore_init_masked (init_values : List (String × List ℚ)) (snip_module_name : String)
    (current_masks : MaskSet) (module_to_snip : PTree) : Option PTree :=
  current_masks.foldlM
    (fun t nm => restore_step init_values (snip_prefix_str snip_module_name) t nm) module_to_snip

/-- Loop body of the no-mask branch of restore_init for one init_values
entry: skip names outside the snip module, otherwise rsplit the full
name, strip drop_len characters from the module part and rewrite every
currently-zero element. -/
def restore_full_step (snip_module_name : String) (drop_len : Nat) (t : PTree)
    (fv : String × List ℚ) : Option PTree :=
  if snip_module_name.toList.isPrefixOf fv.1.toList then do
    let mn ← rsplitName fv.1
    updateParamAt t (splitOnDot (mn.1.drop drop_len)) mn.2 (fun cur =>
      if fv.2.length = cur.length then some (restore_param_full fv.2 cur) else none)
  else pure t

/-- No-mask (full density) branch of SniperTraining.restore_init. -/
def restore_init_full (init_values : List (String × List ℚ)) (snip_module_name : String)
    (module_to_snip : PTree) : Option PTree :=
  let drop_len := if snip_module_name = "" then 0 else snip_module_name.length + 1
  init_values.foldlM (fun t fv => restore_full_step snip_module_name drop_len t fv) module_to_snip

/-- Optimizer parameter group: param_group with a name and a live lr. -/
structure PGroup where
  name : String
  lr : ℚ
deriving DecidableEq

/-- Current binding of scheduler.step: the original bound method, or the
partial application of the module-level scheduler_step with lr_factor
(uniform path) or lr_factors (per-parameter path). -/
inductive StepSlot where
  | original : StepSlot
  | patchedUniform : ℚ → StepSlot
  | patchedPerParam : List ℚ → StepSlot
deriving DecidableEq

/-- A scheduler as seen by the machine. -/
structure SchedSt where
  closed_form : Bool
  slot : StepSlot
deriving DecidableEq

/-- Configuration fixed by the train call. -/
structure SniperConfig where
  schedule : List (Nat × ℚ)
  snip_module_name : String
  forward_mask : Bool
  scale_lr : Bool
  scale_lr_by_param : Bool
  max_lr_scaling : ℚ
  max_param_sparsity : ℚ
  exclude_params : List String
  restore_init_values : Bool
  resume_epoch : Nat
  optim_lrs : List ℚ
  optimizers0 : List (List PGroup)
  closed_form_flags : List Bool
  disk_masks : ℚ → MaskSet

/-- Mutable training state of SniperTraining. registered_hooks models the
collection of forward pre-hooks currently registered on module_to_snip
(hook id paired with the masks value the hook closure captured);
forward_hook models the stored RemovableHandle. -/
structure SniperState where
  epoch : Nat
  current_sparsity : ℚ
  current_masks : Option MaskSet
  registered_hooks : List (Nat × Option MaskSet)
  forward_hook : Option (Nat × Option MaskSet)
  next_hook_id : Nat
  optimizers : List (List PGroup)
  schedulers : List SchedSt
  lr_factor : ℚ
  optim_lr_factors : List (List ℚ)
deriving DecidableEq

/-- SniperTraining.load_masks: read the mask file for a sparsity (the
disk oracle) and delete every entry whose name contains an excluded
substring. -/
def load_masks (cfg : SniperConfig) (sparsity : ℚ) : MaskSet :=
  (cfg.disk_masks sparsity).filter
    (fun nm => !(cfg.exclude_params.any (fun e => containsChars nm.1.toList e.toList)))

/-- SniperTraining.update_hooks: remove the stored hook handle if any,
then, for nonzero sparsity, register a fresh forward pre-hook closing
over the current masks; for zero sparsity, store no handle. -/
def update_hooks (st : SniperState) (new_sparsity : ℚ) : SniperState :=
  let removed :=
    match st.forward_hook with
    | some h => st.registered_hooks.filter (fun r => r.1 ≠ h.1)
    | none => st.registered_hooks
  if new_sparsity ≠ 0 then
    let h := (st.next_hook_id, st.current_masks)
    { st with registered_hooks := removed ++ [h], forward_hook := some h,
              next_hook_id := st.next_hook_id + 1 }
  else
    { st with registered_hooks := removed, forward_hook := none }

/-- SniperTraining.scaling_fn: min(max_lr_scaling, 1/(1 - r)) applied to
a sparsity fraction r; none models the ZeroDivisionError at r = 1. -/
def scaling_fn (max_lr_scaling r : ℚ) : Option ℚ :=
  if (1 : ℚ) - r = 0 then none else some (min max_lr_scaling (1 / (1 - r)))

/-- Multiply every live group lr of one optimizer by a factor. -/
def mul_groups (q : ℚ) (optim : List PGroup) : List PGroup :=
  optim.map (fun g => { g with lr := g.lr * q })

/-- Uniform-path zip over (update_step_fns, optimizers, schedulers):
patch the step binding of closed-form schedulers with the single factor,
multiply group lrs of the rest; elements beyond the shortest list are
untouched (Python zip). -/
def apply_uniform : List SchedSt → List (List PGroup) → ℚ → (List SchedSt × List (List PGroup))
  | s :: ss, o :: os, q =>
    let r := apply_uniform ss os q
    if s.closed_form then ({ s with slot := StepSlot.patchedUniform q } :: r.1, o :: r.2)
    else (s :: r.1, mul_groups q o :: r.2)
  | ss, os, _ => (ss, os)

/-- The list comprehension [new / old for new, old in zip(new, old)];
none models ZeroDivisionError on a zero old factor. -/
def lr_quots : List ℚ → List ℚ → Option (List ℚ)
  | n :: ns, o :: os => do
    let q ← pyDiv n o
    let qs ← lr_quots ns os
    pure (q :: qs)
  | _, _ => some []

/-- zip(lr_ratios, optimizer.param_groups) multiplying each group lr by
its ratio; groups beyond the ratio list are untouched (Python zip). -/
def apply_quots : List ℚ → List PGroup → List PGroup
  | q :: qs, g :: gs => { g with lr := g.lr * q } :: apply_quots qs gs
  | _, gs => gs

/-- Per-parameter-path zip over (update_step_fns, old factors, new
factors, optimizers, schedulers): patch the step binding of closed-form
schedulers with the new factor list, otherwise multiply group lrs by the
new/old ratios. -/
def apply_per_param : List SchedSt → List (List ℚ) → List (List ℚ) → List (List PGroup) →
    Option (List SchedSt × List (List PGroup))
  | s :: ss, old :: olds, nw :: nws, o :: os => do
    let r ← apply_per_param ss olds nws os
    if s.closed_form then
      pure ({ s with slot := StepSlot.patchedPerParam nw } :: r.1, o :: r.2)
    else do
      let qs ← lr_quots nw old
      pure (s :: r.1, apply_quots qs o :: r.2)
  | ss, _, _, os => pure (ss, os)

/-- Per-parameter path with no schedulers: zip over (old factors, new
factors, optimizers), multiplying group lrs by the new/old ratios. -/
def apply_per_param_no_sched : List (List ℚ) → List (List ℚ) → List (List PGroup) →
    Option (List (List PGroup))
  | old :: olds, nw :: nws, o :: os => do
    let os2 ← apply_per_param_no_sched olds nws os
    let qs ← lr_quots nw old
    pure (apply_quots qs o :: os2)
  | _, _, os => pure os

/-- New per-group factor of update_lrs (inner loop of the per-parameter
path): strip the snip prefix from the group name, look it up in the
current masks, and use scaling_fn on (1 - density) when the density is
nonzero; otherwise keep the uniform factor. none models the
ZeroDivisionError on an empty mask. -/
def group_factor (cfg : SniperConfig) (masks : MaskSet) (new_lr_factor : ℚ)
    (cutoff : Nat) (param_group : PGroup) : Option ℚ :=
  let full_name := param_group.name.drop cutoff
  match List.lookup full_name masks with
  | some mask => do
    let density ← pyDiv ((mask.count true : ℚ)) ((mask.length : ℚ))
    if density ≠ 0 then scaling_fn cfg.max_lr_scaling (1 - density)
    else pure new_lr_factor
  | none => pure new_lr_factor

/-- SniperTraining.update_lrs. Faithful branch structure: early return
when neither scaling mode is on; uniform factor from scaling_fn when
scale_lr; per-parameter factors from the current masks when
scale_lr_by_param, applied through the scheduler zips or directly;
otherwise the single new/old ratio applied through the scheduler zip or
directly, with lr_factor updated at the end. -/
def update_lrs (cfg : SniperConfig) (st : SniperState) (new_sparsity : ℚ) :
    Option SniperState :=
  if ¬cfg.scale_lr ∧ ¬cfg.scale_lr_by_param then some st
  else do
    let new_lr_factor ←
      if cfg.scale_lr then scaling_fn cfg.max_lr_scaling (new_sparsity / 100) else some 1
    if cfg.scale_lr_by_param then do
      let masks ← st.current_masks
      let cutoff := if cfg.snip_module_name = "" then 0 else cfg.snip_module_name.length + 1
      let optim_lr_factors ← st.optimizers.mapM (fun optim =>
        optim.mapM (fun param_group => group_factor cfg masks new_lr_factor cutoff param_group))
      if st.schedulers ≠ [] then do
        let r ← apply_per_param st.schedulers st.optim_lr_factors optim_lr_factors st.optimizers
        pure { st with schedulers := r.1, optimizers := r.2, optim_lr_factors := optim_lr_factors }
      else do
        let os2 ← apply_per_param_no_sched st.optim_lr_factors optim_lr_factors st.optimizers
        pure { st with optimizers := os2, optim_lr_factors := optim_lr_factors }
    else do
      let q ← pyDiv new_lr_factor st.lr_factor
      if st.schedulers ≠ [] then
        let r := apply_uniform st.schedulers st.optimizers q
        pure { st with schedulers := r.1, optimizers := r.2, lr_factor := new_lr_factor }
      else
        pure { st with optimizers := st.optimizers.map (fun optim => mul_groups q optim),
                       lr_factor := new_lr_factor }

/-- zip(optimizers, optim_lrs) of reset_lrs (no-scheduler branch):
assign the nominal optimizer lr to every group; optimizers beyond the
optim_lrs list are untouched (Python zip). -/
def assign_lrs : List (List PGroup) → List ℚ → List (List PGroup)
  | o :: os, l :: ls => o.map (fun g => { g with lr := l }) :: assign_lrs os ls
  | os, _ => os

/-- Divide every live group lr of one optimizer by the last factor; none
models ZeroDivisionError. -/
def div_groups (f : ℚ) (optim : List PGroup) : Option (List PGroup) :=
  optim.mapM (fun g => (pyDiv g.lr f).map (fun v => { g with lr := v }))

/-- Scheduler zip of reset_lrs: restore the original step binding of
closed-form schedulers, divide group lrs of the rest by lr_factor. -/
def reset_apply : List SchedSt → List (List PGroup) → ℚ →
    Option (List SchedSt × List (List PGroup))
  | s :: ss, o :: os, f => do
    let r ← reset_apply ss os f
    if s.closed_form then pure ({ s with slot := StepSlot.original } :: r.1, o :: r.2)
    else do
      let o2 ← div_groups f o
      pure (s :: r.1, o2 :: r.2)
  | ss, os, _ => pure (ss, os)

/-- SniperTraining.reset_lrs. Note that the source does not reset
lr_factor or optim_lr_factors here. -/
def reset_lrs (cfg : SniperConfig) (st : SniperState) : Option SniperState :=
  if st.schedulers ≠ [] then do
    let r ← reset_apply st.schedulers st.optimizers st.lr_factor
    pure { st with schedulers := r.1, optimizers := r.2 }
  else
    pure { st with optimizers := assign_lrs st.optimizers cfg.optim_lrs }

/-- Module-level get_sparsity(schedule, epoch): walk the sorted keys
while epoch >= key, then read schedule at keys[i-1]. Python negative
indexing makes i = 0 read the last key; an empty schedule raises
IndexError (none). -/
def get_sparsity (schedule : List (Nat × ℚ)) (epoch : Nat) : Option ℚ :=
  let schedule_epochs := List.insertionSort (fun a b => a ≤ b) (schedule.map Prod.fst)
  let i := (schedule_epochs.takeWhile (fun k => k ≤ epoch)).length
  let match_epoch := if i = 0 then schedule_epochs.getLast? else schedule_epochs[i-1]?
  match_epoch.bind (fun k => List.lookup k schedule)

/-- Module-level scheduler_step restricted to its effect on the LR
values it writes into the optimizer groups: after the scheduler computes
its normal values (external), the original binding writes them
unchanged, the lr_factor patch multiplies them all by that factor, and
the lr_factors patch multiplies them pairwise (zip). -/
def scheduler_step_values (slot : StepSlot) (values : List ℚ) : List ℚ :=
  match slot with
  | StepSlot.original => values
  | StepSlot.patchedUniform f => values.map (fun v => f * v)
  | StepSlot.patchedPerParam fs => List.zipWith (fun f v => f * v) fs values

/-- SniperTraining.resume_from: set the epoch counter, rebind the
optimizer and scheduler references (the caller passes the live objects,
so the machine state keeps its own), recompute the sparsity for the
epoch and rebind the forward hook. Learning rates are not updated.
Note that update_hooks is called unconditionally here, and that
current_masks is left untouched. -/
def resume_from (cfg : SniperConfig) (st0 : SniperState) (epoch : Nat) :
    Option SniperState :=
  let st := { st0 with epoch := epoch }
  (get_sparsity cfg.schedule epoch).map (fun resume_sparsity => update_hooks st resume_sparsity)

/-- SniperTraining.step: increment the epoch; when the new epoch is
scheduled, load the masks and update lrs (nonzero sparsity) or clear the
masks and reset lrs (zero sparsity), then rebind the hook if
forward_mask. restore_init and log_nonzeros_count only touch model
parameter values (modelled separately) and no machine field. -/
def sniper_step (cfg : SniperConfig) (st0 : SniperState) : Option SniperState :=
  let st1 := { st0 with epoch := st0.epoch + 1 }
  match List.lookup st1.epoch cfg.schedule with
  | none => some st1
  | some new_sparsity => do
    let st2 := { st1 with current_sparsity := new_sparsity }
    let st3 ←
      if new_sparsity ≠ 0 then
        update_lrs cfg { st2 with current_masks := some (load_masks cfg new_sparsity) } new_sparsity
      else
        reset_lrs cfg { st2 with current_masks := none }
    pure (if cfg.forward_mask then update_hooks st3 new_sparsity else st3)

/-- SniperTraining.train after argument storage: assert 0 in schedule,
build the initial state (lr_factor 1, per-group factors 1 when
scale_lr_by_param, schedulers with their original step bindings and
closed-form flags), and, for a nonzero starting sparsity, assert
optimizers nonempty and either resume or load the starting masks, update
lrs and register the initial forward hook. Mask-file precomputation only
writes the disk cache (the disk_masks oracle); track_pg_indices is
reporting-only and is not carried. -/
def train_setup (cfg : SniperConfig) : Option SniperState := do
  let start_sparsity ← List.lookup 0 cfg.schedule
  let st0 : SniperState := {
    epoch := 0
    current_sparsity := start_sparsity
    current_masks := none
    registered_hooks := []
    forward_hook := none
    next_hook_id := 0
    optimizers := cfg.optimizers0
    schedulers := cfg.closed_form_flags.map (fun b => { closed_form := b, slot := StepSlot.original })
    lr_factor := 1
    optim_lr_factors :=
      if cfg.scale_lr_by_param then cfg.optimizers0.map (fun optim => optim.map (fun _ => (1 : ℚ)))
      else [] }
  if start_sparsity ≠ 0 then
    if cfg.optimizers0 = [] then none
    else if cfg.resume_epoch ≠ 0 then resume_from cfg st0 cfg.resume_epoch
    else do
      let st1 := { st0 with current_masks := some (load_masks cfg start_sparsity) }
      let st2 ← update_lrs cfg st1 start_sparsity
      if cfg.forward_mask then
        let h := (st2.next_hook_id, st2.current_masks)
        pure { st2 with registered_hooks := st2.registered_hooks ++ [h], forward_hook := some h,
                        next_hook_id := st2.next_hook_id + 1 }
      else pure st2
  else pure st0

/-- States reachable from a completed setup by step and resume_from. -/
inductive Reaches (cfg : SniperConfig) : SniperState → Prop where
  | setup : ∀ st, train_setup cfg = some st → Reaches cfg st
  | step : ∀ st st2, Reaches cfg st → sniper_step cfg st = some st2 → Reaches cfg st2
  | resume : ∀ st e st2, Reaches cfg st → resume_from cfg st e = some st2 → Reaches cfg st2

/-- The registered hook collection is exactly the stored handle: empty
with no handle, a single hook otherwise. -/
def hook_list_ok (st : SniperState) : Prop :=
  st.registered_hooks = (match st.forward_hook with | none => [] | some h2 => [h2])

/-- Hook invariant of claim C3 (amended): the hook bookkeeping holds at
most one hook, and, when forward masking is enabled, every registered
hook closes over
the current masks and no hook is registered while the scheduled sparsity
at the current epoch is zero. -/
def HookInv (cfg : SniperConfig) (st : SniperState) : Prop :=
  hook_list_ok st ∧
  (cfg.forward_mask = true →
    (∀ h2 ∈ st.registered_hooks, h2.2 = st.current_masks) ∧
    (get_sparsity cfg.schedule st.epoch = some 0 → st.registered_hooks = []))

/-- Live learning rates per optimizer and group. -/
def lrs_of (st : SniperState) : List (List ℚ) := st.optimizers.map (fun o => o.map (fun g => g.lr))

/-- Configuration of the C2 scenario: schedule 0 at epoch 0, 50 at epoch
2, 0 at epoch 4; one optimizer whose groups all have lr 1; scale_lr on,
scale_lr_by_param off, max_lr_scaling 2, optim_lrs (1.0,), no
schedulers. -/
def cfg2 : SniperConfig := {
  schedule := [(0, 0), (2, 50), (4, 0)]
  snip_module_name := ""
  forward_mask := true
  scale_lr := true
  scale_lr_by_param := false
  max_lr_scaling := 2
  max_param_sparsity := 100
  exclude_params := []
  restore_init_values := true
  resume_epoch := 0
  optim_lrs := [1]
  optimizers0 := [[{ name := "a", lr := 1 }, { name := "b", lr := 1 }]]
  closed_form_flags := []
  disk_masks := fun _ => [("w", [true])] }

/-- Configuration of the C6 failing run: one closed-form scheduler,
scale_lr on, scale_lr_by_param off, consecutive nonzero sparsities 50
then 75. -/
def cfg6 : SniperConfig := {
  schedule := [(0, 0), (1, 50), (2, 75)]
  snip_module_name := ""
  forward_mask := false
  scale_lr := true
  scale_lr_by_param := false
  max_lr_scaling := 100
  max_param_sparsity := 100
  exclude_params := []
  restore_init_values := true
  resume_epoch := 0
  optim_lrs := [1]
  optimizers0 := [[{ name := "a", lr := 1 }]]
  closed_form_flags := [true]
  disk_masks := fun _ => [("w", [true])] }

/-- Configuration of the C7 failing run: resume at epoch 2 with starting
sparsity 50; the schedule places sparsity 70 at epoch 2, and the disk
holds a nonempty mask set for it. -/
def cfg7 : SniperConfig := {
  schedule := [(0, 50), (2, 70)]
  snip_module_name := ""
  forward_mask := true
  scale_lr := false
  scale_lr_by_param := false
  max_lr_scaling := 2
  max_param_sparsity := 100
  exclude_params := []
  restore_init_values := true
  resume_epoch := 2
  optim_lrs := [1]
  optimizers0 := [[{ name := "a", lr := 1 }]]
  closed_form_flags := []
  disk_masks := fun _ => [("lin.weight", [true, false])] }

/-- Configuration of the C3 counterexample: forward_mask disabled, resume
into epoch 3 (sparsity 50), then one step into scheduled sparsity 0. -/
def cfg3 : SniperConfig := {
  schedule := [(0, 50), (4, 0)]
  snip_module_name := ""
  forward_mask := false
  scale_lr := false
  scale_lr_by_param := false
  max_lr_scaling := 2
  max_param_sparsity := 100
  exclude_params := []
  restore_init_values := true
  resume_epoch := 3
  optim_lrs := [1]
  optimizers0 := [[{ name := "a", lr := 1 }]]
  closed_form_flags := []
  disk_masks := fun _ => [("w", [true])] }

/-- Concrete state for the C10 counterexample: the machine right after a
setup at sparsity 0 with one optimizer and no schedulers. -/
def st10 : SniperState := {
  epoch := 0
  current_sparsity := 0
  current_masks := none
  registered_hooks := []
  forward_hook := none
  next_hook_id := 0
  optimizers := [[{ name := "a", lr := 1 }]]
  schedulers := []
  lr_factor := 1
  optim_lr_factors := [] }

/-- Concrete module tree for claim C9: a parameter w at the root and a
submodule enc holding parameter w2. It has no attribute named missing. -/
def t9 : PTree := PTree.node [("w", [1])] [("enc", PTree.node [("w2", [2])] [])]

/-- Base state reached by train_setup under the cfg2 configuration. -/
def st0W : SniperState := {
  epoch := 0
  current_sparsity := 0
  current_masks := none
  registered_hooks := []
  forward_hook := none
  next_hook_id := 0
  optimizers := cfg2.optimizers0
  schedulers := []
  lr_factor := 1
  optim_lr_factors := [] }

/-- Claim C1 (code bug): for a parameter with 100 elements with distinct
sensitivities, cap max_param_sparsity = 80, at sparsity 95 (where the
global threshold alone would zero 95 elements), create_masks zeroes 81
elements, not at most 80: the per-parameter override takes its threshold
at index 1 + int(max_sparsity * numel) = 81 and keeps only the strictly
larger elements, so the fraction of false entries is 81/100, which
exceeds the cap c/100 = 80/100 and contradicts both the claim and the
docstring of max_param_sparsity. -/
theorem c1_cap_exceeded_by_one :
    ((create_masks 95 [("w", c1_grads)] 80).map
        (fun ms => ms.map (fun nm => (nm.1, nm.2.count false, nm.2.length)))
      = some [("w", 81, 100)]) ∧ ¬((81 : ℚ) / 100 ≤ 80 / 100) := by
  with_unfolding_all decide

/-- Claim C8 (counterexample): with one single-element parameter and two
batches whose gradients are 1 and -1, compute_gradients returns 0 (the
absolute value of the accumulated sum of gradients), while the claimed
running total of per-batch absolute gradients would be 2. -/
theorem c8_counterexample_abs_of_sum :
    compute_gradients ["w"] [1] [[[1]], [[-1]]] = [("w", [0])] ∧
    compute_gradients_claimed ["w"] [1] [[[1]], [[-1]]] = [("w", [2])] ∧
    compute_gradients ["w"] [1] [[[1]], [[-1]]]
      ≠ compute_gradients_claimed ["w"] [1] [[[1]], [[-1]]] := by
  with_unfolding_all decide

/-- Element access of a fold of elementwise zipWith combinations, when
all combined lists have the length of the accumulator. -/
theorem foldl_zipWith_getD {α : Type} (f : α → α → α) (d : α) :
    ∀ (gs : List (List α)) (acc : List α),
      (∀ g ∈ gs, g.length = acc.length) → ∀ i, i < acc.length →
      (gs.foldl (fun a g => List.zipWith f a g) acc).getD i d
        = gs.foldl (fun x g => f x (g.getD i d)) (acc.getD i d) := by
  intro gs
  induction gs with
  | nil => intro acc _ i _; rfl
  | cons g rest ih =>
    intro acc hlen i hi
    have hg : g.length = acc.length := hlen g (List.mem_cons_self g rest)
    have hzl : (List.zipWith f acc g).length = acc.length := by
      simp [List.length_zipWith, hg]
    have hstep : (List.zipWith f acc g).getD i d = f (acc.getD i d) (g.getD i d) := by
      have hi2 : i < (List.zipWith f acc g).length := by omega
      have hia : i < acc.length := hi
      have hib : i < g.length := by omega
      rw [List.getD_eq_getElem _ _ hi2, List.getD_eq_getElem _ _ hia,
        List.getD_eq_getElem _ _ hib, List.getElem_zipWith]
    calc ((g :: rest).foldl (fun a g => List.zipWith f a g) acc).getD i d
        = (rest.foldl (fun a g => List.zipWith f a g) (List.zipWith f acc g)).getD i d := rfl
      _ = rest.foldl (fun x g => f x (g.getD i d)) ((List.zipWith f acc g).getD i d) := by
          refine ih (List.zipWith f acc g) ?_ i (by omega)
          intro g2 hg2
          rw [hzl]
          exact hlen g2 (List.mem_cons_of_mem g hg2)
      _ = ((g :: rest).foldl (fun x g => f x (g.getD i d)) (acc.getD i d)) := by
          rw [hstep]; rfl

/-- Claim C8 (amended): the GradientSensitivityMap returned by
compute_gradients assigns to each prunable parameter, elementwise, the
absolute value of the SUM over batches of that batch gradient (abs of
total, not total of abs). -/
theorem c8_amended_abs_of_total (names : List String) (shapes : List Nat)
    (gs : List (List (List ℚ)))
    (hlen : ∀ g ∈ gs, g.length = shapes.length)
    (hinner : ∀ g ∈ gs, ∀ k, k < shapes.length → (g.getD k []).length = shapes.getD k 0)
    (p i : Nat) (hp : p < shapes.length) (hi : i < shapes.getD p 0) (hnp : p < names.length) :
    ((compute_gradients names shapes gs).getD p ("", [])).2.getD i 0
      = |(gs.map (fun g => (g.getD p []).getD i 0)).sum| := by
  have foldLen : ∀ {α : Type} (f : α → α → α) (gs2 : List (List α)) (acc : List α),
      (∀ g ∈ gs2, g.length = acc.length) →
      (gs2.foldl (fun a g => List.zipWith f a g) acc).length = acc.length := by
    intro α f gs2
    induction gs2 with
    | nil => intro acc _; rfl
    | cons g rest ih =>
      intro acc hlen2
      have hg : g.length = acc.length := hlen2 g (List.mem_cons_self g rest)
      have hzl : (List.zipWith f acc g).length = acc.length := by
        simp [List.length_zipWith, hg]
      calc ((g :: rest).foldl (fun a g => List.zipWith f a g) acc).length
          = (rest.foldl (fun a g => List.zipWith f a g) (List.zipWith f acc g)).length := rfl
        _ = (List.zipWith f acc g).length := by
            refine ih (List.zipWith f acc g) ?_
            intro g2 hg2
            rw [hzl]
            exact hlen2 g2 (List.mem_cons_of_mem g hg2)
        _ = acc.length := hzl
  unfold compute_gradients
  set init := shapes.map (fun n => List.replicate n (0 : ℚ)) with hinit_def
  have hinitlen : init.length = shapes.length := by simp [hinit_def]
  have hlen2 : ∀ g ∈ gs, g.length = init.length := by
    intro g hg; rw [hinitlen]; exact hlen g hg
  set T := gs.foldl
      (fun a g => List.zipWith (fun t h => List.zipWith (fun x y => x + y) t h) a g) init with hT_def
  have hTlen : T.length = shapes.length := by
    rw [hT_def, foldLen _ gs init hlen2, hinitlen]
  have hinitp : init.getD p [] = List.replicate (shapes.getD p 0) 0 := by
    have hp2 : p < init.length := by omega
    rw [List.getD_eq_getElem _ _ hp2, List.getD_eq_getElem _ _ hp]
    simp only [hinit_def, List.getElem_map]
  have hTp : T.getD p [] = gs.foldl
      (fun x g => List.zipWith (fun a b => a + b) x (g.getD p [])) (init.getD p []) := by
    rw [hT_def]
    exact foldl_zipWith_getD _ [] gs init hlen2 p (by omega)
  have hTp2 : T.getD p [] = (gs.map (fun g => g.getD p [])).foldl
      (fun x m => List.zipWith (fun a b => a + b) x m) (List.replicate (shapes.getD p 0) 0) := by
    rw [hTp, hinitp, List.foldl_map]
  have hmemlen : ∀ m ∈ gs.map (fun g => g.getD p []), m.length
      = (List.replicate (shapes.getD p 0) (0 : ℚ)).length := by
    intro m hm
    rcases List.mem_map.mp hm with ⟨g, hg, rfl⟩
    rw [List.length_replicate]
    exact hinner g hg p hp
  have hTplen : (T.getD p []).length = shapes.getD p 0 := by
    rw [hTp2, foldLen _ _ _ hmemlen, List.length_replicate]
  have hTpi : (T.getD p []).getD i 0 = (gs.map (fun g => (g.getD p []).getD i 0)).sum := by
    rw [hTp2, foldl_zipWith_getD _ _ _ _ hmemlen i (by simpa using hi)]
    have hrep : (List.replicate (shapes.getD p 0) (0 : ℚ)).getD i 0 = 0 := by
      rw [List.getD_eq_getElem _ _ (by simpa using hi), List.getElem_replicate]
    rw [hrep, List.sum_eq_foldl, List.foldl_map, List.foldl_map]
  have hziplen : p < (List.zip names (T.map (fun t => t.map (fun x => |x|)))).length := by
    rw [List.length_zip, List.length_map, hTlen]
    omega
  have hp4 : p < T.length := by omega
  have hzip : (List.zip names (T.map (fun t => t.map (fun x => |x|)))).getD p ("", [])
      = (names.getD p "", (T.getD p []).map (fun x => |x|)) := by
    rw [List.getD_eq_getElem _ _ hziplen, List.getElem_zip,
      List.getD_eq_getElem names _ hnp, List.getD_eq_getElem T _ hp4, List.getElem_map]
  rw [hzip]
  have hmlen : i < ((T.getD p []).map (fun x => |x|)).length := by
    rw [List.length_map, hTplen]; exact hi
  have hilen : i < (T.getD p []).length := by rw [hTplen]; exact hi
  rw [List.getD_eq_getElem _ _ hmlen, List.getElem_map,
    ← List.getD_eq_getElem _ (0 : ℚ) hilen, hTpi]

/-- Witness for c8_amended_abs_of_total: one parameter of two elements,
two batches with gradients (1, 2) and (-3, 4); element 1 of the total is
the absolute value of 2 + 4. -/
theorem c8_amended_abs_of_total_witness :
    ((compute_gradients ["w"] [2] [[[1, 2]], [[-3, 4]]]).getD 0 ("", [])).2.getD 1 0
      = |(([[[1, 2]], [[-3, 4]]] : List (List (List ℚ))).map
          (fun g => (g.getD 0 []).getD 1 0)).sum| :=
  c8_amended_abs_of_total ["w"] [2] [[[1, 2]], [[-3, 4]]]
    (by decide) (by decide) 0 1 (by decide) (by decide) (by decide)

/-
Module trees.  A PyTorch module is modelled as a tree: an association list
of directly held parameters (name to flat value list) and an association
list of named submodules.  Python getattr resolves parameters first and
then submodules, mirroring nn.Module.__getattr__ (parameters before
modules); none models AttributeError.
-/

/-- Lookup in an association list after assocSet: the key being set maps
to the new value exactly when it was present; other keys are unchanged. -/
theorem lookup_assocSet {β : Type} (k k2 : String) (v : β) :
    ∀ (l : List (String × β)),
      List.lookup k2 (assocSet l k v)
        = if k2 = k then (List.lookup k l).map (fun _ => v) else List.lookup k2 l := by
  intro l
  induction l with
  | nil => by_cases h : k2 = k <;> simp [assocSet, h]
  | cons p l ih =>
    rcases p with ⟨a, b⟩
    have hstep : assocSet ((a, b) :: l) k v
        = (if a = k then (k, v) else (a, b)) :: assocSet l k v := rfl
    rw [hstep]
    by_cases h1 : a = k
    · subst h1
      simp only [if_pos rfl]
      by_cases h2 : k2 = a
      · subst h2
        simp [List.lookup_cons]
      · have hb : (k2 == a) = false := by simpa using h2
        simp [List.lookup_cons, hb, ih, h2]
    · simp only [if_neg h1]
      by_cases h3 : k2 = a
      · subst h3
        simp [List.lookup_cons, h1]
      · have hb : (k2 == a) = false := by simpa using h3
        by_cases h2 : k2 = k
        · subst h2
          have hb2 : (k2 == a) = false := hb
          simp [List.lookup_cons, hb2, ih]
        · simp [List.lookup_cons, hb, ih, h2]

/-- Length of zipWith3. -/
theorem length_zipWith3 {α β γ δ : Type} (f : α → β → γ → δ) :
    ∀ (as : List α) (bs : List β) (cs : List γ),
      (List.zipWith3 f as bs cs).length = min as.length (min bs.length cs.length) := by
  intro as
  induction as with
  | nil => intro bs cs; simp [List.zipWith3]
  | cons a as ih =>
    intro bs cs
    cases bs with
    | nil => simp [List.zipWith3]
    | cons b bs =>
      cases cs with
      | nil => simp [List.zipWith3]
      | cons c cs =>
        have h1 : List.zipWith3 f (a :: as) (b :: bs) (c :: cs)
            = f a b c :: List.zipWith3 f as bs cs := rfl
        rw [h1]
        simp [ih, Nat.succ_min_succ]

/-- The per-name restore write preserves the element count under the
length guards of restore_step. -/
theorem restore_param_masked_length (iv cur : List ℚ) (mask : List Bool)
    (h1 : iv.length = cur.length) (h2 : mask.length = cur.length) :
    (restore_param_masked iv cur mask).length = cur.length := by
  unfold restore_param_masked restore_write values_to_update_masked
  rw [length_zipWith3]
  simp [List.length_zipWith, h1, h2]

/-- Structure preservation of updateParamAt: a successful length-guarded
update leaves the resolvability of every other qualified parameter
unchanged (parameter and submodule names are untouched and value lengths
are preserved). -/
theorem updateParamAt_pres (n k : String) (f g : List ℚ → Option (List ℚ))
    (hf : ∀ v w, f v = some w → w.length = v.length)
    (hg : ∀ v1 v2, v1.length = v2.length → (g v1).isSome = (g v2).isSome) :
    ∀ (p : List String) (t t2 : PTree), updateParamAt t p n f = some t2 →
      ∀ (q : List String),
        (updateParamAt t2 q k g).isSome = (updateParamAt t q k g).isSome := by
  intro p
  induction p with
  | nil =>
    intro t t2 hupd q
    cases t with
    | node ps cs =>
      simp only [updateParamAt, PTree.params, PTree.subs] at hupd
      cases hln : List.lookup n ps with
      | none => simp [hln] at hupd
      | some v =>
        simp only [hln] at hupd
        cases hfv : f v with
        | none => simp [hfv] at hupd
        | some v2 =>
          simp only [hfv, Option.map_some'] at hupd
          cases hupd
          cases q with
          | nil =>
            have hlt2 := lookup_assocSet n k v2 ps
            by_cases hk : k = n
            · rw [if_pos hk, hln] at hlt2
              simp only [Option.map_some'] at hlt2
              rw [hk] at hlt2
              simp only [updateParamAt, PTree.params, hlt2, hk, hln, Option.isSome_map']
              exact hg v2 v (hf v v2 hfv)
            · rw [if_neg hk] at hlt2
              simp only [updateParamAt, PTree.params, hlt2]
              cases List.lookup k ps
              all_goals simp [Option.isSome_map']
          | cons s rest =>
            have hlt2 := lookup_assocSet n s v2 ps
            by_cases hs : s = n
            · rw [if_pos hs, hln] at hlt2
              simp only [Option.map_some'] at hlt2
              rw [hs] at hlt2
              simp only [updateParamAt, PTree.params, PTree.subs, hlt2, hs, hln]
            · rw [if_neg hs] at hlt2
              simp only [updateParamAt, PTree.params, PTree.subs, hlt2]
              cases List.lookup s ps
              · cases List.lookup s cs
                all_goals simp [Option.isSome_map']
              · simp
  | cons s pr ih =>
    intro t t2 hupd q
    cases t with
    | node ps cs =>
      simp only [updateParamAt, PTree.params, PTree.subs] at hupd
      cases hlp : List.lookup s ps with
      | some v => simp [hlp] at hupd
      | none =>
        simp only [hlp] at hupd
        cases hlc : List.lookup s cs with
        | none => simp [hlc] at hupd
        | some child =>
          simp only [hlc] at hupd
          cases hch : updateParamAt child pr n f with
          | none => simp [hch] at hupd
          | some child2 =>
            simp only [hch, Option.map_some'] at hupd
            cases hupd
            cases q with
            | nil =>
              simp only [updateParamAt, PTree.params]
              cases List.lookup k ps
              all_goals simp [Option.isSome_map']
            | cons s2 rest =>
              have hlt2 := lookup_assocSet s s2 child2 cs
              simp only [updateParamAt, PTree.params, PTree.subs]
              cases hlp2 : List.lookup s2 ps with
              | some u => simp
              | none =>
                by_cases hs2 : s2 = s
                · rw [if_pos hs2, hlc] at hlt2
                  simp only [Option.map_some'] at hlt2
                  rw [hs2] at hlt2
                  simp only [hlt2, hs2, hlc, Option.isSome_map']
                  exact ih child child2 hch rest
                · rw [if_neg hs2] at hlt2
                  simp only [hlt2]
                  cases List.lookup s2 cs
                  all_goals simp [Option.isSome_map']

/-- A successful restore_step leaves the success of every other restore
step unchanged: it only rewrites one parameter value, preserving its
length and every name in the module tree. -/
theorem restore_step_pres (iv : List (String × List ℚ)) (pfx : String) (t t1 : PTree)
    (y : String × List Bool) (hy : restore_step iv pfx t y = some t1) :
    ∀ (x : String × List Bool),
      (restore_step iv pfx t1 x).isSome = (restore_step iv pfx t x).isSome := by
  intro x
  unfold restore_step at hy
  cases hly : List.lookup (pfx ++ y.1) iv with
  | none => simp [hly] at hy
  | some ivy =>
    simp only [hly, Option.some_bind] at hy
    cases hry : rsplitName y.1 with
    | none => simp [hry] at hy
    | some mn =>
      simp only [hry, Option.some_bind] at hy
      unfold restore_step
      cases hlx : List.lookup (pfx ++ x.1) iv with
      | none => simp [hlx]
      | some ivx =>
        simp only [Option.bind_eq_bind, Option.some_bind]
        cases hrx : rsplitName x.1 with
        | none => simp
        | some mnx =>
          simp only [Option.bind_eq_bind, Option.some_bind]
          have hf : ∀ v w : List ℚ,
              (if v.length = y.2.length ∧ ivy.length = v.length
                then some (restore_param_masked ivy v y.2) else none) = some w →
              w.length = v.length := by
            intro v w hvw
            by_cases hc : v.length = y.2.length ∧ ivy.length = v.length
            · rw [if_pos hc] at hvw
              cases hvw
              exact restore_param_masked_length ivy v y.2 hc.2 hc.1.symm
            · rw [if_neg hc] at hvw
              cases hvw
          have hg : ∀ v1 v2 : List ℚ, v1.length = v2.length →
              ((if v1.length = x.2.length ∧ ivx.length = v1.length
                then some (restore_param_masked ivx v1 x.2) else none).isSome)
              = ((if v2.length = x.2.length ∧ ivx.length = v2.length
                then some (restore_param_masked ivx v2 x.2) else none).isSome) := by
            intro v1 v2 hlen
            rw [hlen]
            by_cases hc : v2.length = x.2.length ∧ ivx.length = v2.length
            · rw [if_pos hc, if_pos hc]
              rfl
            · rw [if_neg hc, if_neg hc]
          exact updateParamAt_pres mn.2 mnx.2 _ _ hf hg (splitOnDot mn.1) t t1 hy
            (splitOnDot mnx.1)

/-- Failure propagation out of the restore loop: if the restore step of
some mask entry fails on the incoming module tree, the whole fold fails
(no entry is silently skipped). -/
theorem restore_fold_none (iv : List (String × List ℚ)) (pfx : String) :
    ∀ (masks : List (String × List Bool)) (t : PTree),
      (∃ x ∈ masks, restore_step iv pfx t x = none) →
      List.foldlM (fun t2 nm => restore_step iv pfx t2 nm) t masks = none := by
  intro masks
  induction masks with
  | nil =>
    intro t h
    rcases h with ⟨x, hx, _⟩
    cases hx
  | cons y ms ih =>
    intro t h
    rcases h with ⟨x, hx, hfail⟩
    rw [List.foldlM_cons]
    cases hy : restore_step iv pfx t y with
    | none => simp
    | some t1 =>
      rcases List.mem_cons.mp hx with rfl | hx2
      · rw [hy] at hfail
        cases hfail
      · have hpres := restore_step_pres iv pfx t t1 y hy x
        have hx3 : restore_step iv pfx t1 x = none := by
          rw [hfail] at hpres
          cases hq : restore_step iv pfx t1 x with
          | none => rfl
          | some u => rw [hq] at hpres; simp at hpres
        simp only [Option.bind_eq_bind, Option.some_bind]
        exact ih t1 ⟨x, hx2, hx3⟩

/-- Element access of zipWith under in-bounds indices. -/
theorem getD_zipWith2 {α β γ : Type} (f : α → β → γ) (da : α) (db : β) (dc : γ) :
    ∀ (as : List α) (bs : List β) (i : Nat), i < as.length → i < bs.length →
      (List.zipWith f as bs).getD i dc = f (as.getD i da) (bs.getD i db) := by
  intro as
  induction as with
  | nil => intro bs i h _; exact absurd h (by simp)
  | cons a as ih =>
    intro bs i ha hb
    cases bs with
    | nil => exact absurd hb (by simp)
    | cons b bs =>
      cases i with
      | zero => rfl
      | succ j =>
        have := ih bs j (by simpa using ha) (by simpa using hb)
        simpa using this

/-- Element access of zipWith3 under in-bounds indices. -/
theorem getD_zipWith3 {α β γ δ : Type} (f : α → β → γ → δ) (da : α) (db : β) (dc : γ) (dd : δ) :
    ∀ (as : List α) (bs : List β) (cs : List γ) (i : Nat),
      i < as.length → i < bs.length → i < cs.length →
      (List.zipWith3 f as bs cs).getD i dd = f (as.getD i da) (bs.getD i db) (cs.getD i dc) := by
  intro as
  induction as with
  | nil => intro bs cs i h _ _; exact absurd h (by simp)
  | cons a as ih =>
    intro bs cs i ha hb hc
    cases bs with
    | nil => exact absurd hb (by simp)
    | cons b bs =>
      cases cs with
      | nil => exact absurd hc (by simp)
      | cons c cs =>
        cases i with
        | zero => rfl
        | succ j =>
          have h1 : List.zipWith3 f (a :: as) (b :: bs) (c :: cs)
              = f a b c :: List.zipWith3 f as bs cs := rfl
          rw [h1, List.getD_cons_succ, List.getD_cons_succ, List.getD_cons_succ,
            List.getD_cons_succ]
          exact ih bs cs j (by simpa using ha) (by simpa using hb) (by simpa using hc)

/-- Claim C4: the elementwise write of restore_init never modifies an
element whose current value is nonzero; in the masked branch it
overwrites every currently-zero element marked active by the current
mask with the InitialValues entry at that position and leaves
currently-zero inactive elements at zero; in the no-mask (full density)
branch it overwrites every currently-zero element with the InitialValues
entry. -/
theorem c4_restore_frame (init cur : List ℚ) (mask : List Bool) (i : Nat)
    (hinit : init.length = cur.length) (hmask : mask.length = cur.length)
    (hi : i < cur.length) :
    ((cur.getD i 0 ≠ 0 → (restore_param_masked init cur mask).getD i 0 = cur.getD i 0)
      ∧ (cur.getD i 0 = 0 → mask.getD i false = true →
          (restore_param_masked init cur mask).getD i 0 = init.getD i 0)
      ∧ (cur.getD i 0 = 0 → mask.getD i false = false →
          (restore_param_masked init cur mask).getD i 0 = 0))
    ∧ ((cur.getD i 0 ≠ 0 → (restore_param_full init cur).getD i 0 = cur.getD i 0)
      ∧ (cur.getD i 0 = 0 → (restore_param_full init cur).getD i 0 = init.getD i 0)) := by
  have hvl : (values_to_update_masked cur mask).length = cur.length := by
    simp [values_to_update_masked, List.length_zipWith, hmask]
  have hv : (values_to_update_masked cur mask).getD i false
      = (decide (cur.getD i 0 = 0) && mask.getD i false) := by
    unfold values_to_update_masked
    exact getD_zipWith2 _ 0 false false cur mask i hi (by omega)
  have hw : (restore_param_masked init cur mask).getD i 0
      = init.getD i 0 * (if (values_to_update_masked cur mask).getD i false then 1 else 0)
        + cur.getD i 0 := by
    unfold restore_param_masked restore_write
    exact getD_zipWith3 _ 0 false 0 0 init _ cur i (by omega) (by omega) hi
  have hvfl : (values_to_update_full cur).length = cur.length := by
    simp [values_to_update_full]
  have hvf : (values_to_update_full cur).getD i false = decide (cur.getD i 0 = 0) := by
    unfold values_to_update_full
    have hi2 : i < (cur.map (fun c => decide (c = 0))).length := by simpa using hi
    rw [List.getD_eq_getElem _ _ hi2, List.getElem_map, ← List.getD_eq_getElem _ (0 : ℚ) hi]
  have hwf : (restore_param_full init cur).getD i 0
      = init.getD i 0 * (if (values_to_update_full cur).getD i false then 1 else 0)
        + cur.getD i 0 := by
    unfold restore_param_full restore_write
    exact getD_zipWith3 _ 0 false 0 0 init _ cur i (by omega) (by omega) hi
  constructor
  · refine ⟨?_, ?_, ?_⟩
    · intro hne
      have hd : decide (cur.getD i 0 = 0) = false := by simpa using hne
      rw [hw, hv, hd]
      simp
    · intro hz hm
      rw [hw, hv, hz, hm]
      simp
    · intro hz hm
      rw [hw, hv, hz, hm]
      simp
  · constructor
    · intro hne
      have hd : decide (cur.getD i 0 = 0) = false := by simpa using hne
      rw [hwf, hvf, hd]
      simp
    · intro hz
      rw [hwf, hvf, hz]
      simp

/-- Witness for c4_restore_frame: current values (3, 0, 0), initial
values (7, 8, 9), mask (true, true, false); element 0 is nonzero and
kept, and would be 3 in both branches. -/
theorem c4_restore_frame_witness :
    ((((3 : ℚ) ≠ 0 → (restore_param_masked [7, 8, 9] [3, 0, 0] [true, true, false]).getD 0 0 = 3)
      ∧ ((3 : ℚ) = 0 → [true, true, false].getD 0 false = true →
          (restore_param_masked [7, 8, 9] [3, 0, 0] [true, true, false]).getD 0 0 = 7)
      ∧ ((3 : ℚ) = 0 → [true, true, false].getD 0 false = false →
          (restore_param_masked [7, 8, 9] [3, 0, 0] [true, true, false]).getD 0 0 = 0))
    ∧ (((3 : ℚ) ≠ 0 → (restore_param_full [7, 8, 9] [3, 0, 0]).getD 0 0 = 3)
      ∧ ((3 : ℚ) = 0 → (restore_param_full [7, 8, 9] [3, 0, 0]).getD 0 0 = 7))) :=
  c4_restore_frame [7, 8, 9] [3, 0, 0] [true, true, false] 0
    (by decide) (by decide) (by decide)

/-
The epoch-stepping state machine of SniperTraining: train (setup), step,
resume_from, update_hooks, update_lrs, scaling_fn, reset_lrs, load_masks,
get_sparsity and the monkey-patched scheduler step.  restore_init and
log_nonzeros_count touch only model parameter values on disk and in the
module tree (modelled above) and none of the fields below, so the machine
does not carry the model.  The mask files that train precomputes on disk
appear as the disk_masks oracle.  A scheduler is its closed-form flag
(update_step_fns[i], computed at setup from isinstance against
CLOSED_FORM_LR_SCHEDULERS) together with the current binding of its step
attribute; the LR values a scheduler computes internally are external and
appear only in scheduler_step_values.
-/

/-- Claim C2: with schedule mapping epoch 0 to sparsity 0, epoch 2 to 50
and epoch 4 to 0, a single optimizer whose parameter groups all have lr
1, scale_lr on, scale_lr_by_param off, max_lr_scaling 2, optim_lrs
(1.0,) and no schedulers, the step call that reaches epoch 2 leaves
every parameter group lr equal to 2 (scaling_fn gives min(2, 1/(1-1/2))
= 2), and the step call that reaches epoch 4 leaves every parameter
group lr equal to 1. -/
theorem c2_lr_schedule_scenario :
    ((((train_setup cfg2).bind (sniper_step cfg2)).bind (sniper_step cfg2)).map
        (fun st => (st.epoch, lrs_of st)) = some (2, [[2, 2]])) ∧
    (((((((train_setup cfg2).bind (sniper_step cfg2)).bind (sniper_step cfg2)).bind
        (sniper_step cfg2)).bind (sniper_step cfg2)).map
          (fun st => (st.epoch, lrs_of st))) = some (4, [[1, 1]])) := by
  with_unfolding_all decide

/-- Claim C6 (code bug): under uniform scaling (scale_lr on,
scale_lr_by_param off), a closed-form scheduler has its step operation
replaced with a patch that multiplies the computed LR values by the
new/old factor RATIO of the latest transition, not by the current
factor. After the transitions to sparsity 50 (factor 2) and then 75
(factor 4), the installed patch multiplies by 2 while the current
factor, which the claim and the spec require, is 4. -/
theorem c6_closed_form_patch_uses_latest_quotient :
    ((((train_setup cfg6).bind (sniper_step cfg6)).bind (sniper_step cfg6)).map
        (fun st => (st.lr_factor, st.schedulers.map (fun s => s.slot)))
      = some (4, [StepSlot.patchedUniform 2])) ∧
    scheduler_step_values (StepSlot.patchedUniform 2) [1] = [2] ∧
    scheduler_step_values (StepSlot.patchedUniform 2) [1] ≠ [(4 : ℚ) * 1] := by
  with_unfolding_all decide

/-- Claim C7 (code bug): resuming training at epoch 2 with nonzero
starting sparsity sets the epoch counter and performs no learning-rate
updates as claimed, but it does NOT rebind the mask state to the MaskSet
of the schedule entry at epoch 2 (sparsity 70, whose mask set exists on
disk and is nonempty): current_masks stays none and the freshly
registered forward pre-hook closes over none, so the next forward pass
raises AttributeError instead of applying the sparsity-70 masks. -/
theorem c7_resume_does_not_rebind_masks :
    ((train_setup cfg7).map
        (fun st => (st.epoch, st.current_masks, st.forward_hook, st.lr_factor, lrs_of st))
      = some (2, none, some (0, none), 1, [[1]])) ∧
    load_masks cfg7 70 = [("lin.weight", [true, false])] ∧
    (none : Option MaskSet) ≠ some (load_masks cfg7 70) := by
  with_unfolding_all decide

/-- Claim C10 (counterexample): sparsity 100 is inside the allowed
schedule range 0-100, but the uniform scaling computation divides by
1 - 100/100 = 0 with no guard: scaling_fn raises ZeroDivisionError and
update_lrs does not complete. -/
theorem c10_counterexample_sparsity_100 :
    update_lrs cfg2 st10 100 = none ∧ scaling_fn 2 (100 / 100) = none := by
  with_unfolding_all decide

/-- Claim C10 (amended): with scale_lr_by_param off, the uniform scaling
computation min(max_lr_scaling, 1/(1 - s/100)) is well-defined for every
scheduled sparsity s in [0, 100), so update_lrs completes there (for any
nonzero maintained lr_factor); at s = 100 the division is unguarded and
raises. -/
theorem c10_amended_update_lrs_completes (cfg : SniperConfig) (st : SniperState) (s : ℚ)
    (hbp : cfg.scale_lr_by_param = false) (h0 : 0 ≤ s) (h1 : s < 100)
    (hf : st.lr_factor ≠ 0) : (update_lrs cfg st s).isSome := by
  have hden : (1 : ℚ) - s / 100 ≠ 0 := by
    have h2 : s / 100 < 1 := by
      rw [div_lt_one (by norm_num : (0 : ℚ) < 100)]
      exact h1
    intro hcontra
    nlinarith
  by_cases hs : cfg.scale_lr = true
  · unfold update_lrs scaling_fn pyDiv
    simp only [hs, hbp, hden, hf, if_false, if_true, Bool.false_eq_true, not_false_iff,
      not_true, false_and, and_false, ite_false, ite_true]
    simp [hden, hf, Option.bind]
    split
    all_goals simp
  · have hs2 : cfg.scale_lr = false := by
      cases hcs : cfg.scale_lr
      · rfl
      · exact absurd hcs hs
    unfold update_lrs
    simp [hs2, hbp]

/-- Witness for c10_amended_update_lrs_completes at sparsity 50. -/
theorem c10_amended_update_lrs_completes_witness : (update_lrs cfg2 st10 50).isSome :=
  c10_amended_update_lrs_completes cfg2 st10 50 (by with_unfolding_all decide)
    (by norm_num) (by norm_num) (by with_unfolding_all decide)

/-- Assigned group lrs after the no-scheduler branch of reset_lrs. -/
theorem assign_lrs_getD :
    ∀ (os : List (List PGroup)) (ls : List ℚ) (oi : Nat) (optim : List PGroup),
      os.length ≤ ls.length → (assign_lrs os ls)[oi]? = some optim →
      ∀ g ∈ optim, g.lr = ls.getD oi 0 := by
  intro os
  induction os with
  | nil =>
    intro ls oi optim _ h
    simp [assign_lrs] at h
  | cons o os ih =>
    intro ls oi optim hlen h
    cases ls with
    | nil => simp at hlen
    | cons l ls =>
      cases oi with
      | zero =>
        have h2 : (o.map (fun g => { g with lr := l })) = optim := by
          simpa [assign_lrs] using h
        intro g hg
        rw [← h2] at hg
        rcases List.mem_map.mp hg with ⟨g0, _, rfl⟩
        rfl
      | succ j =>
        have h2 : (assign_lrs os ls)[j]? = some optim := by
          simpa [assign_lrs] using h
        have hlen2 : os.length ≤ ls.length := by simpa using hlen
        exact ih ls j optim hlen2 h2

/-- Claim C5: in the no-scheduler configuration, whenever a step
transitions back to sparsity 0 (so reset_lrs runs), every optimizer
parameter group lr afterwards equals that optimizer entry of optim_lrs
(its originally configured nominal lr), regardless of the preceding
sequence of sparsity transitions encoded in the incoming state. -/
theorem c5_reset_restores_nominal (cfg : SniperConfig) (st : SniperState)
    (hns : st.schedulers = [])
    (hz : List.lookup (st.epoch + 1) cfg.schedule = some 0)
    (hlen : st.optimizers.length ≤ cfg.optim_lrs.length) :
    ∃ st2, sniper_step cfg st = some st2 ∧
      ∀ oi optim, st2.optimizers[oi]? = some optim →
        ∀ g ∈ optim, g.lr = cfg.optim_lrs.getD oi 0 := by
  have hres : ∀ stA : SniperState, stA.schedulers = [] →
      reset_lrs cfg stA = some { stA with optimizers := assign_lrs stA.optimizers cfg.optim_lrs } := by
    intro stA hA
    unfold reset_lrs
    simp [hA]
  unfold sniper_step
  dsimp only
  rw [hz]
  dsimp only
  rw [if_neg (by norm_num : ¬((0 : ℚ) ≠ 0)),
    hres { st with epoch := st.epoch + 1, current_sparsity := 0, current_masks := none } hns]
  dsimp only [Option.bind]
  refine ⟨_, rfl, ?_⟩
  intro oi optim hoi g hg
  have hopt : ∀ (stX : SniperState) (sp : ℚ),
      (update_hooks stX sp).optimizers = stX.optimizers := by
    intro stX sp
    unfold update_hooks
    split
    all_goals split
    all_goals rfl
  by_cases hfm : cfg.forward_mask
  · rw [if_pos hfm, hopt] at hoi
    exact assign_lrs_getD st.optimizers cfg.optim_lrs oi optim hlen hoi g hg
  · rw [if_neg hfm] at hoi
    exact assign_lrs_getD st.optimizers cfg.optim_lrs oi optim hlen hoi g hg

/-- Witness for c5_reset_restores_nominal: from the state st10 with the
cfg2 schedule taken at epoch 3 (so the next epoch, 4, is scheduled to
sparsity 0). -/
theorem c5_reset_restores_nominal_witness :
    ∃ st2, sniper_step cfg2 { st10 with epoch := 3 } = some st2 ∧
      ∀ oi optim, st2.optimizers[oi]? = some optim →
        ∀ g ∈ optim, g.lr = cfg2.optim_lrs.getD oi 0 :=
  c5_reset_restores_nominal cfg2 { st10 with epoch := 3 }
    (by with_unfolding_all decide) (by with_unfolding_all decide)
    (by with_unfolding_all decide)

/-- update_lrs only modifies the optimizer, scheduler and factor fields
of the state. -/
theorem update_lrs_frame (cfg : SniperConfig) (st : SniperState) (s : ℚ) (st2 : SniperState)
    (h : update_lrs cfg st s = some st2) :
    st2.epoch = st.epoch ∧ st2.current_sparsity = st.current_sparsity
    ∧ st2.current_masks = st.current_masks ∧ st2.registered_hooks = st.registered_hooks
    ∧ st2.forward_hook = st.forward_hook ∧ st2.next_hook_id = st.next_hook_id := by
  unfold update_lrs at h
  by_cases h1 : ¬cfg.scale_lr ∧ ¬cfg.scale_lr_by_param
  · rw [if_pos h1] at h
    cases h
    exact ⟨rfl, rfl, rfl, rfl, rfl, rfl⟩
  · rw [if_neg h1] at h
    simp only [Option.bind_eq_bind] at h
    by_cases h4 : cfg.scale_lr = true
    · rw [if_pos h4] at h
      rcases Option.bind_eq_some.mp h with ⟨new, hnew, h⟩
      try dsimp only at h
      by_cases h2 : cfg.scale_lr_by_param = true
      · rw [if_pos h2] at h
        rcases Option.bind_eq_some.mp h with ⟨masks, hm, h⟩
        try dsimp only at h
        rcases Option.bind_eq_some.mp h with ⟨factors, hfa, h⟩
        try dsimp only at h
        by_cases h3 : st.schedulers ≠ []
        · rw [if_pos h3] at h
          rcases Option.bind_eq_some.mp h with ⟨r, hr, h⟩
          try dsimp only at h
          cases h
          exact ⟨rfl, rfl, rfl, rfl, rfl, rfl⟩
        · rw [if_neg h3] at h
          rcases Option.bind_eq_some.mp h with ⟨os2, ho, h⟩
          try dsimp only at h
          cases h
          exact ⟨rfl, rfl, rfl, rfl, rfl, rfl⟩
      · rw [if_neg h2] at h
        rcases Option.bind_eq_some.mp h with ⟨q, hq, h⟩
        try dsimp only at h
        by_cases h3 : st.schedulers ≠ []
        · rw [if_pos h3] at h
          cases h
          exact ⟨rfl, rfl, rfl, rfl, rfl, rfl⟩
        · rw [if_neg h3] at h
          cases h
          exact ⟨rfl, rfl, rfl, rfl, rfl, rfl⟩
    · rw [if_neg h4] at h
      rcases Option.bind_eq_some.mp h with ⟨new, hnew, h⟩
      try dsimp only at h
      by_cases h2 : cfg.scale_lr_by_param = true
      · rw [if_pos h2] at h
        rcases Option.bind_eq_some.mp h with ⟨masks, hm, h⟩
        try dsimp only at h
        rcases Option.bind_eq_some.mp h with ⟨factors, hfa, h⟩
        try dsimp only at h
        by_cases h3 : st.schedulers ≠ []
        · rw [if_pos h3] at h
          rcases Option.bind_eq_some.mp h with ⟨r, hr, h⟩
          try dsimp only at h
          cases h
          exact ⟨rfl, rfl, rfl, rfl, rfl, rfl⟩
        · rw [if_neg h3] at h
          rcases Option.bind_eq_some.mp h with ⟨os2, ho, h⟩
          try dsimp only at h
          cases h
          exact ⟨rfl, rfl, rfl, rfl, rfl, rfl⟩
      · rw [if_neg h2] at h
        rcases Option.bind_eq_some.mp h with ⟨q, hq, h⟩
        try dsimp only at h
        by_cases h3 : st.schedulers ≠ []
        · rw [if_pos h3] at h
          cases h
          exact ⟨rfl, rfl, rfl, rfl, rfl, rfl⟩
        · rw [if_neg h3] at h
          cases h
          exact ⟨rfl, rfl, rfl, rfl, rfl, rfl⟩

/-- reset_lrs only modifies the optimizer and scheduler fields of the
state. -/
theorem reset_lrs_frame (cfg : SniperConfig) (st : SniperState) (st2 : SniperState)
    (h : reset_lrs cfg st = some st2) :
    st2.epoch = st.epoch ∧ st2.current_sparsity = st.current_sparsity
    ∧ st2.current_masks = st.current_masks ∧ st2.registered_hooks = st.registered_hooks
    ∧ st2.forward_hook = st.forward_hook ∧ st2.next_hook_id = st.next_hook_id := by
  unfold reset_lrs at h
  by_cases h1 : st.schedulers ≠ []
  · rw [if_pos h1] at h
    simp only [Option.bind_eq_bind] at h
    rcases Option.bind_eq_some.mp h with ⟨r, hr, h⟩
    try dsimp only at h
    cases h
    exact ⟨rfl, rfl, rfl, rfl, rfl, rfl⟩
  · rw [if_neg h1] at h
    cases h
    exact ⟨rfl, rfl, rfl, rfl, rfl, rfl⟩

/-- Effect of update_hooks on the hook bookkeeping, assuming the
incoming bookkeeping is consistent: afterwards the registered collection
matches the stored handle, and the handle is a fresh hook closing over
the current masks for nonzero sparsity and absent for zero sparsity. -/
theorem update_hooks_spec (st : SniperState) (sp : ℚ) (hok : hook_list_ok st) :
    hook_list_ok (update_hooks st sp)
    ∧ (sp ≠ 0 → (update_hooks st sp).registered_hooks
        = [(st.next_hook_id, st.current_masks)])
    ∧ (sp = 0 → (update_hooks st sp).registered_hooks = [])
    ∧ (update_hooks st sp).current_masks = st.current_masks
    ∧ (update_hooks st sp).epoch = st.epoch := by
  unfold hook_list_ok at hok
  unfold update_hooks
  have hrem : (match st.forward_hook with
      | some h2 => st.registered_hooks.filter (fun r => r.1 ≠ h2.1)
      | none => st.registered_hooks) = [] := by
    cases hfh : st.forward_hook with
    | none => rw [hfh] at hok; exact hok
    | some h2 =>
      rw [hfh] at hok
      rw [hok]
      simp [List.filter]
  by_cases hsp : sp ≠ 0
  · rw [if_pos hsp]
    refine ⟨?_, fun _ => ?_, fun h0 => absurd h0 hsp, rfl, rfl⟩
    · unfold hook_list_ok
      dsimp only
      rw [hrem]
      rfl
    · dsimp only
      rw [hrem]
      rfl
  · rw [if_neg hsp]
    refine ⟨?_, fun hne => absurd (by simpa using hsp) (by simpa using hne), fun _ => ?_, rfl, rfl⟩
    · unfold hook_list_ok
      dsimp only
      rw [hrem]
    · dsimp only
      rw [hrem]

/-- takeWhile only depends on the predicate values on the list. -/
theorem takeWhile_congr_mem {α : Type} (p q : α → Bool) :
    ∀ (l : List α), (∀ x ∈ l, p x = q x) → l.takeWhile p = l.takeWhile q := by
  intro l
  induction l with
  | nil => intro _; rfl
  | cons a l ih =>
    intro h
    have ha : p a = q a := h a (List.mem_cons_self a l)
    rw [List.takeWhile_cons, List.takeWhile_cons, ha,
      ih (fun x hx => h x (List.mem_cons_of_mem a hx))]

/-- In a sorted list containing e, the last element kept by
takeWhile (at most e) is e itself. -/
theorem takeWhile_getLast_sorted :
    ∀ (l : List Nat) (e : Nat), l.Sorted (· ≤ ·) → e ∈ l →
      (l.takeWhile (fun k => k ≤ e)).getLast? = some e := by
  intro l
  induction l with
  | nil => intro e _ he; cases he
  | cons a l ih =>
    intro e hs hm
    have hhead : ∀ b ∈ l, a ≤ b := (List.sorted_cons.mp hs).1
    have hsl : l.Sorted (· ≤ ·) := (List.sorted_cons.mp hs).2
    by_cases ha : a ≤ e
    · have ht : (a :: l).takeWhile (fun k => decide (k ≤ e))
          = a :: l.takeWhile (fun k => decide (k ≤ e)) := by
        simp [List.takeWhile_cons, ha]
      rw [ht]
      by_cases hml : e ∈ l
      · have hlast := ih e hsl hml
        cases htw : l.takeWhile (fun k => decide (k ≤ e)) with
        | nil => rw [htw] at hlast; cases hlast
        | cons c tl =>
          rw [htw] at hlast
          rw [List.getLast?_cons_cons]
          exact hlast
      · have hea : e = a := by
          rcases List.mem_cons.mp hm with rfl | hm2
          · rfl
          · exact absurd hm2 hml
        have htw : l.takeWhile (fun k => decide (k ≤ e)) = [] := by
          cases hl : l with
          | nil => rfl
          | cons b l2 =>
            have heb : a ≤ b := hhead b (by rw [hl]; exact List.mem_cons_self b l2)
            have hnbe : ¬(b ≤ e) := by
              intro hbe
              have hbea : b = e := le_antisymm hbe (hea ▸ heb)
              exact hml (hbea ▸ (by rw [hl]; exact List.mem_cons_self b l2))
            simp [List.takeWhile_cons, hnbe]
        rw [htw, hea]
        rfl
    · exfalso
      rcases List.mem_cons.mp hm with rfl | hm2
      · exact ha le_rfl
      · exact ha (le_trans (hhead e hm2) le_rfl)

/-- get_sparsity at an epoch that is a schedule key yields the scheduled
sparsity of that key. -/
theorem get_sparsity_of_lookup (schedule : List (Nat × ℚ)) (e : Nat) (v : ℚ)
    (h : List.lookup e schedule = some v) : get_sparsity schedule e = some v := by
  unfold get_sparsity
  dsimp only
  have hmemkeys : e ∈ schedule.map Prod.fst := by
    have hos : (List.lookup e schedule).isSome := by rw [h]; rfl
    rcases List.lookup_isSome_iff.mp hos with ⟨p, hp, hep⟩
    have hpe : e = p.1 := by simpa using hep
    rw [hpe]
    exact List.mem_map.mpr ⟨p, hp, rfl⟩
  set L := List.insertionSort (fun a b => a ≤ b) (schedule.map Prod.fst) with hL
  have hsort : L.Sorted (· ≤ ·) := List.sorted_insertionSort _ _
  have hmem : e ∈ L := ((List.perm_insertionSort _ _).mem_iff).mpr hmemkeys
  set tw := L.takeWhile (fun k => decide (k ≤ e)) with htw
  have hlast : tw.getLast? = some e := takeWhile_getLast_sorted L e hsort hmem
  have hne : tw ≠ [] := by
    intro h0
    rw [h0] at hlast
    cases hlast
  have hlen0 : ¬(tw.length = 0) := by simpa [List.length_eq_zero] using hne
  rw [if_neg hlen0]
  have hpc : tw <+: L := by rw [htw]; exact List.takeWhile_prefix _
  rcases hpc with ⟨r, hr⟩
  have hlt : tw.length - 1 < tw.length := by omega
  rw [← hr, List.getElem?_append_left hlt, ← List.getLast?_eq_getElem?, hlast]
  simpa using h

/-- get_sparsity is unchanged by moving to an epoch that is not a
schedule key. -/
theorem get_sparsity_succ_none (schedule : List (Nat × ℚ)) (e : Nat)
    (h : List.lookup (e + 1) schedule = none) :
    get_sparsity schedule (e + 1) = get_sparsity schedule e := by
  unfold get_sparsity
  dsimp only
  have hnot : ∀ x ∈ List.insertionSort (fun a b => a ≤ b) (schedule.map Prod.fst),
      x ≠ e + 1 := by
    intro x hx hxe
    have hxk : x ∈ schedule.map Prod.fst := ((List.perm_insertionSort _ _).mem_iff).mp hx
    rcases List.mem_map.mp hxk with ⟨p, hp, hpx⟩
    have := List.lookup_eq_none_iff.mp h p hp
    rw [hpx, hxe] at this
    simp at this
  have hcong : (List.insertionSort (fun a b => a ≤ b) (schedule.map Prod.fst)).takeWhile
        (fun k => k ≤ e + 1)
      = (List.insertionSort (fun a b => a ≤ b) (schedule.map Prod.fst)).takeWhile
        (fun k => k ≤ e) := by
    apply takeWhile_congr_mem
    intro x hx
    have hxe := hnot x hx
    have hiff : x ≤ e + 1 ↔ x ≤ e := by omega
    exact decide_eq_decide.mpr hiff
  rw [hcong]

/-- Claim C9 (counterexample): the qualified name missing does not
resolve in t9 (get_module_by_name fails), yet get_module_to_snip does
not propagate the lookup failure: it catches the AttributeError and
substitutes the whole model as the fallback target. -/
theorem c9_counterexample_whole_model_fallback :
    get_module_by_name t9 "missing" = none ∧
    get_module_to_snip t9 "missing" = PAttr.mod t9 := ⟨rfl, rfl⟩

/-- Claim C9 (amended): weight restoration propagates lookup failures:
if any mask entry fails its restore step on the module tree (initial
values key missing, unresolvable qualified name, or shape mismatch),
restore_init_masked fails rather than skipping the entry;
get_module_by_name itself propagates unresolved names; but submodule
resolution via get_module_to_snip substitutes the whole model whenever
the path does not resolve. -/
theorem c9_amended_lookup_failures :
    (∀ (model : PTree) (s : String), get_module_by_name model s = none →
        get_module_to_snip model s = PAttr.mod model)
    ∧ (∀ (init_values : List (String × List ℚ)) (snip_module_name : String)
        (masks : MaskSet) (t : PTree),
        (∃ x ∈ masks, restore_step init_values (snip_prefix_str snip_module_name) t x = none) →
        restore_init_masked init_values snip_module_name masks t = none) := by
  constructor
  · intro model s h
    unfold get_module_to_snip
    rw [h]
  · intro iv snip masks t h
    unfold restore_init_masked
    exact restore_fold_none iv (snip_prefix_str snip) masks t h

/-- Witness for c9_amended_lookup_failures: the fallback at the
unresolved name missing in t9, and a restore over a mask whose qualified
name enc.absent has no entry in the initial values (KeyError), which
makes the whole restore fail. -/
theorem c9_amended_lookup_failures_witness :
    get_module_to_snip t9 "missing" = PAttr.mod t9 ∧
    restore_init_masked [("enc.w2", [5])] "" [("enc.absent", [true])] t9 = none :=
  ⟨c9_amended_lookup_failures.1 t9 "missing" rfl,
   c9_amended_lookup_failures.2 [("enc.w2", [5])] "" [("enc.absent", [true])] t9
     ⟨("enc.absent", [true]), by simp, rfl⟩⟩

/-- resume_from preserves the hook invariant: it re-registers the hook
from the current masks according to the scheduled sparsity of the
resumed epoch. -/
theorem hookinv_resume (cfg : SniperConfig) (stA stB : SniperState) (e : Nat)
    (hok : hook_list_ok stA) (hres : resume_from cfg stA e = some stB) :
    HookInv cfg stB := by
  unfold resume_from at hres
  cases hgs : get_sparsity cfg.schedule e with
  | none => rw [hgs] at hres; cases hres
  | some rs =>
    rw [hgs] at hres
    simp only [Option.map_some'] at hres
    cases hres
    have hok2 : hook_list_ok ({ stA with epoch := e } : SniperState) := hok
    have hspec := update_hooks_spec { stA with epoch := e } rs hok2
    refine ⟨hspec.1, fun _ => ⟨?_, ?_⟩⟩
    · intro h2 hmem
      by_cases hrs : rs ≠ 0
      · rw [hspec.2.1 hrs] at hmem
        have h2eq : h2 = (stA.next_hook_id, stA.current_masks) := List.mem_singleton.mp hmem
        rw [h2eq]
        have hcm : (update_hooks { stA with epoch := e } rs).current_masks
            = stA.current_masks := hspec.2.2.2.1
        rw [hcm]
      · have hrs0 : rs = 0 := by simpa using hrs
        rw [hspec.2.2.1 hrs0] at hmem
        cases hmem
    · intro hz
      have hep : (update_hooks { stA with epoch := e } rs).epoch = e := hspec.2.2.2.2
      rw [hep, hgs] at hz
      have hrs0 : rs = 0 := by
        injection hz
      exact hspec.2.2.1 hrs0

/-- sniper_step preserves the hook invariant. -/
theorem hookinv_step (cfg : SniperConfig) (stA stB : SniperState)
    (ih : HookInv cfg stA) (hstep : sniper_step cfg stA = some stB) :
    HookInv cfg stB := by
  unfold sniper_step at hstep
  dsimp only at hstep
  cases hlk : List.lookup (stA.epoch + 1) cfg.schedule with
  | none =>
    rw [hlk] at hstep
    cases hstep
    refine ⟨ih.1, fun hfm => ⟨(ih.2 hfm).1, fun hz => ?_⟩⟩
    have hz2 : get_sparsity cfg.schedule (stA.epoch + 1) = some 0 := hz
    rw [get_sparsity_succ_none cfg.schedule stA.epoch hlk] at hz2
    exact (ih.2 hfm).2 hz2
  | some ns =>
    rw [hlk] at hstep
    dsimp only at hstep
    by_cases hns : ns ≠ 0
    · rw [if_pos hns] at hstep
      simp only [Option.bind_eq_bind] at hstep
      rcases Option.bind_eq_some.mp hstep with ⟨stM, hlrs, hstep⟩
      try dsimp only at hstep
      have hfr := update_lrs_frame _ _ _ _ hlrs
      have hokM : hook_list_ok stM := by
        unfold hook_list_ok
        have hro : stM.registered_hooks = stA.registered_hooks := hfr.2.2.2.1
        have hfo : stM.forward_hook = stA.forward_hook := hfr.2.2.2.2.1
        rw [hro, hfo]
        exact ih.1
      have hepM : stM.epoch = stA.epoch + 1 := hfr.1
      cases hstep
      by_cases hfm : cfg.forward_mask = true
      · rw [if_pos hfm]
        have hspec := update_hooks_spec stM ns hokM
        refine ⟨hspec.1, fun _ => ⟨?_, ?_⟩⟩
        · intro h2 hmem
          rw [hspec.2.1 hns] at hmem
          have h2eq : h2 = (stM.next_hook_id, stM.current_masks) := List.mem_singleton.mp hmem
          rw [h2eq]
          exact hspec.2.2.2.1.symm ▸ rfl
        · intro hz
          exfalso
          have hep2 : (update_hooks stM ns).epoch = stA.epoch + 1 := by
            rw [hspec.2.2.2.2, hepM]
          rw [hep2] at hz
          rw [get_sparsity_of_lookup cfg.schedule (stA.epoch + 1) ns hlk] at hz
          have : ns = 0 := by injection hz
          exact hns this
      · rw [if_neg hfm]
        exact ⟨hokM, fun hfm2 => absurd hfm2 hfm⟩
    · rw [if_neg hns] at hstep
      simp only [Option.bind_eq_bind] at hstep
      rcases Option.bind_eq_some.mp hstep with ⟨stM, hrst, hstep⟩
      try dsimp only at hstep
      have hfr := reset_lrs_frame _ _ _ hrst
      have hokM : hook_list_ok stM := by
        unfold hook_list_ok
        have hro : stM.registered_hooks = stA.registered_hooks := hfr.2.2.2.1
        have hfo : stM.forward_hook = stA.forward_hook := hfr.2.2.2.2.1
        rw [hro, hfo]
        exact ih.1
      have hns0 : ns = 0 := by simpa using hns
      cases hstep
      by_cases hfm : cfg.forward_mask = true
      · rw [if_pos hfm]
        have hspec := update_hooks_spec stM ns hokM
        have hreg : (update_hooks stM ns).registered_hooks = [] := hspec.2.2.1 hns0
        refine ⟨hspec.1, fun _ => ⟨?_, fun _ => hreg⟩⟩
        intro h2 hmem
        rw [hreg] at hmem
        cases hmem
      · rw [if_neg hfm]
        exact ⟨hokM, fun hfm2 => absurd hfm2 hfm⟩

/-- train_setup establishes the hook invariant. -/
theorem hookinv_setup (cfg : SniperConfig) (st0 : SniperState)
    (hs : train_setup cfg = some st0) : HookInv cfg st0 := by
  unfold train_setup at hs
  simp only [Option.bind_eq_bind] at hs
  rcases Option.bind_eq_some.mp hs with ⟨start, hstart, hs⟩
  try dsimp only at hs
  by_cases h1 : start ≠ 0
  · rw [if_pos h1] at hs
    by_cases h2 : cfg.optimizers0 = []
    · rw [if_pos h2] at hs
      cases hs
    · rw [if_neg h2] at hs
      by_cases h3 : cfg.resume_epoch ≠ 0
      · rw [if_pos h3] at hs
        exact hookinv_resume cfg _ st0 cfg.resume_epoch (by unfold hook_list_ok; rfl) hs
      · rw [if_neg h3] at hs
        try simp only [Option.bind_eq_bind] at hs
        rcases Option.bind_eq_some.mp hs with ⟨st2, hlrs, hs⟩
        try dsimp only at hs
        have hfr := update_lrs_frame _ _ _ _ hlrs
        have hro : st2.registered_hooks = [] := hfr.2.2.2.1
        have hfo : st2.forward_hook = none := hfr.2.2.2.2.1
        have hep : st2.epoch = 0 := hfr.1
        by_cases hfm : cfg.forward_mask = true
        · rw [if_pos hfm] at hs
          cases hs
          refine ⟨?_, fun _ => ⟨?_, ?_⟩⟩
          · unfold hook_list_ok
            dsimp only
            rw [hro]
            rfl
          · intro h2 hmem
            dsimp only at hmem
            rw [hro] at hmem
            simp only [List.nil_append] at hmem
            have h2eq : h2 = (st2.next_hook_id, st2.current_masks) := List.mem_singleton.mp hmem
            rw [h2eq]
          · intro hz
            exfalso
            have hz2 : get_sparsity cfg.schedule 0 = some 0 := by
              rw [← hep]
              exact hz
            rw [get_sparsity_of_lookup cfg.schedule 0 start hstart] at hz2
            have : start = 0 := by injection hz2
            exact h1 this
        · rw [if_neg hfm] at hs
          cases hs
          refine ⟨?_, fun hfm2 => absurd hfm2 hfm⟩
          unfold hook_list_ok
          rw [hro, hfo]
  · rw [if_neg h1] at hs
    cases hs
    refine ⟨by unfold hook_list_ok; rfl, fun _ => ⟨?_, fun _ => rfl⟩⟩
    intro h2 hmem
    cases hmem

/-- Claim C3 (amended): after setup and any sequence of step and
resume_from calls, at most one forward pre-hook is registered on the
pruned submodule; when forward masking is enabled, every registered
hook closes over the current MaskSet (never a stale one) and no hook
is registered whenever the scheduled sparsity at the current epoch is
zero. (With forward masking disabled, resume_from can register a hook
that later steps neither refresh nor remove, hence the restriction.) -/
theorem c3_amended_hook_invariant (cfg : SniperConfig) (st : SniperState)
    (hr : Reaches cfg st) :
    st.registered_hooks.length ≤ 1 ∧
    (cfg.forward_mask = true →
      (∀ h2 ∈ st.registered_hooks, h2.2 = st.current_masks) ∧
      (get_sparsity cfg.schedule st.epoch = some 0 → st.registered_hooks = [])) := by
  have hinv : HookInv cfg st := by
    induction hr with
    | setup st0 hs => exact hookinv_setup cfg st0 hs
    | step stA stB hra hstep ih => exact hookinv_step cfg stA stB ih hstep
    | resume stA e stB hra hres ih => exact hookinv_resume cfg stA stB e ih.1 hres
  refine ⟨?_, hinv.2⟩
  have h1 := hinv.1
  unfold hook_list_ok at h1
  rw [h1]
  cases st.forward_hook
  all_goals simp

/-- Witness for c3_amended_hook_invariant at the state reached by
train_setup under cfg2. -/
theorem c3_amended_hook_invariant_witness :
    st0W.registered_hooks.length ≤ 1 ∧
    (cfg2.forward_mask = true →
      (∀ h2 ∈ st0W.registered_hooks, h2.2 = st0W.current_masks) ∧
      (get_sparsity cfg2.schedule st0W.epoch = some 0 → st0W.registered_hooks = [])) :=
  c3_amended_hook_invariant cfg2 st0W
    (Reaches.setup st0W (by with_unfolding_all decide))

/-- Claim C3 (counterexample): with forward masking disabled, resume_from
still registers a forward pre-hook (it calls update_hooks
unconditionally), and subsequent step calls never remove it (step guards
update_hooks behind forward_mask). After resuming into sparsity 50 at
epoch 3 and stepping to epoch 4, whose scheduled sparsity is 0, a hook
is still registered, contradicting the claim that no hook is registered
whenever the current sparsity is 0. -/
theorem c3_counterexample_hook_survives_zero_sparsity :
    ((train_setup cfg3).bind (sniper_step cfg3)).map
        (fun st => (st.epoch, st.registered_hooks, st.current_masks,
          get_sparsity cfg3.schedule st.epoch, st.forward_hook))
      = some (4, [(0, none)], none, some 0, some (0, none)) := by
  with_unfolding_all decide

end Sniper
